import Mathlib

/-!
Verification development for the storefront page-data resolution pipeline:
the product-page resolver, the home resolver, and the client-side variant
resolution / URL synchronization routine.

JS strings are modelled as lists of characters (`Str`); `URLSearchParams`
is modelled as an ordered list of name/value pairs with the standard
first-match `get` and replace-first/delete-rest `set` semantics, and a
parse/serialize pair over `Str`.  Percent-encoding is abstracted away:
theorems that need the parse/serialize round trip assume the option names
and values contain no separator characters.
-/

namespace Storefront

/-- JS strings, modelled as lists of characters. -/
abbrev Str := List Char

/-- The ordered pair list underlying a `URLSearchParams` object. -/
abbrev Params := List (Str × Str)

/-- Model of `URLSearchParams.get`: the value of the first pair with the given
name, or `none` (JS `null`) when absent. -/
def getParam : Params → Str → Option Str
  | [], _ => none
  | (m, w) :: rest, n => if m = n then some w else getParam rest n

/-- Drop every pair carrying the given name. -/
def removeParam (n : Str) : Params → Params
  | [] => []
  | (m, w) :: rest =>
    if m = n then removeParam n rest else (m, w) :: removeParam n rest

/-- Model of `URLSearchParams.set`: replace the value of the first pair with
the given name and delete the other pairs with that name; append when the
name is absent. -/
def setParam : Params → Str → Str → Params
  | [], n, v => [(n, v)]
  | (m, w) :: rest, n, v =>
    if m = n then (n, v) :: removeParam n rest else (m, w) :: setParam rest n v

/-- Apply `setParam` for every option name/value pair in order, as the
source's `for (const option of selectedVariant.selectedOptions)` loop over
`updatedParams.set(option.name, option.value)` does. -/
def setAll (ps : Params) (opts : Params) : Params :=
  opts.foldl (fun acc o => setParam acc o.1 o.2) ps

/-- Split a query string at every ampersand (the segment list is nonempty by
construction). -/
def splitAmp : Str → List Str
  | [] => [[]]
  | c :: rest =>
    if c = '&' then [] :: splitAmp rest
    else
      match splitAmp rest with
      | [] => [[c]]
      | s :: ss => (c :: s) :: ss

/-- Split a query segment at its first equals sign into a name/value pair; a
segment with no equals sign becomes a pair with an empty value, as
`URLSearchParams` parsing does. -/
def parsePair : Str → Str × Str
  | [] => ([], [])
  | c :: rest =>
    if c = '=' then ([], rest)
    else (c :: (parsePair rest).1, (parsePair rest).2)

/-- Serialize one name/value pair as `name=value`. -/
def serializePair (p : Str × Str) : Str := p.1 ++ '=' :: p.2

/-- Join query segments with ampersands. -/
def joinAmp : List Str → Str
  | [] => []
  | [s] => s
  | s :: ss => s ++ '&' :: joinAmp ss

/-- Model of `URLSearchParams.toString`. -/
def toQS (ps : Params) : Str := joinAmp (ps.map serializePair)

/-- Model of `URLSearchParams` construction from a query string without a
leading question mark: empty segments are dropped, the rest split at their
first equals sign. -/
def parseQS (s : Str) : Params :=
  ((splitAmp s).filter (fun seg => seg ≠ [])).map parsePair

/-- Model of `new URLSearchParams(window.location.search)`: a single leading
question mark is stripped. -/
def parseSearch : Str → Params
  | [] => parseQS []
  | c :: rest => if c = '?' then parseQS rest else parseQS (c :: rest)

/-- The update-required decision of the synchronization effect
(`src/unnamed/part_000` lines 97-111): required when the location has no
search string at all, otherwise when some option of the selected variant has
a current URL value differing from the variant's value (an absent name
yields JS `null`, which differs from every string). -/
def needsUpdate (opts : Params) (search : Str) : Bool :=
  if search = [] then true
  else opts.any fun o => decide (getParam (parseSearch search) o.1 ≠ some o.2)

/-- The URL synchronization routine (`src/unnamed/part_000` lines 91-130) as
a pure decision function from the combined-listing flag, the optimistic
variant's `selectedOptions` (`none` models a nullish variant or option list)
and the current `window.location.search` to the replacement search string:
`some s` models the `history.replaceState` call installing search `s`,
`none` models no history replacement. -/
def syncURL (combinedListing : Bool) (selOpts : Option Params) (search : Str) :
    Option Str :=
  match selOpts with
  | none => none
  | some opts =>
    if combinedListing then none
    else if needsUpdate opts search then
      let newSearch := toQS (setAll (parseSearch search) opts)
      if newSearch ≠ search.tail then some ('?' :: newSearch) else none
    else none

/-! The resolver layer: data model shared by the product and home loaders. -/

/-- Opaque page-builder payload returned by `weaverse.loadPage`. -/
structure PageContent where
  payload : Str
deriving DecidableEq

/-- Shop summary data returned by the catalog queries; the product route
reads `primaryDomain.url`, the home route `name`/`description`. -/
structure Shop where
  name : Str
  description : Str
  primaryDomainUrl : Str
deriving DecidableEq

/-- A concrete purchasable configuration of a product. -/
structure Variant where
  id : Str
  title : Str
  price : Str
  availableForSale : Bool
  selectedOptions : Params
deriving DecidableEq

/-- A product snapshot as returned by the catalog query.  `combined` is the
combined-listing parent flag; `isCombinedListing` (in `~/utils/combined-listings`,
outside src/) is modelled from the spec as reading it. -/
structure ProductData where
  id : Str
  handle : Str
  title : Str
  vendor : Str
  variants : List Variant
  selectedOrFirstAvailableVariant : Option Variant
  combined : Bool
deriving DecidableEq

/-- Result of the catalog `PRODUCT_QUERY`: the product may be absent
(lookup miss). -/
structure CatalogResult where
  shop : Shop
  product : Option ProductData
deriving DecidableEq

/-- An incoming request's URL, split into path and search parts
(`search` is empty or starts with a question mark). -/
structure Request where
  pathname : Str
  search : Str
deriving DecidableEq

/-- The full request URL, as `request.url` concatenates path and query. -/
def Request.url (r : Request) : Str := r.pathname ++ r.search

/-- Modelled from the spec: process-wide `COMBINED_LISTINGS_CONFIGS`
(in `~/utils/combined-listings`, outside src/), injected explicitly with its
one recognized option. -/
structure CombinedListingsConfig where
  redirectToFirstVariant : Bool
deriving DecidableEq

/-- Modelled from the spec: `isCombinedListing` (in `~/utils/combined-listings`,
outside src/) decides whether the product is a combined-listing parent. -/
def isCombinedListing (p : ProductData) : Bool := p.combined

/-- JS truthiness of `product?.id`: false when the product is nullish or its
id is the empty string. -/
def hasIdentity : Option ProductData → Bool
  | none => false
  | some p => decide (p.id ≠ [])

/-- The canonical product-page path for a handle. -/
def productPath (handle : Str) : Str := "/products/".data ++ handle

/-- Modelled from the spec: `redirectIfHandleIsLocalized` (in
`~/.server/redirect`, outside src/) redirects to the product's canonical
localized URL, preserving the query parameters, exactly when the product's
canonical handle differs from the requested handle; `some target` models the
thrown redirect response. -/
def redirectIfHandleIsLocalized (req : Request) (handle : Str)
    (p : ProductData) : Option Str :=
  if p.handle ≠ handle then some (productPath p.handle ++ req.search) else none

/-- Modelled from the spec: the first child variant's canonical URL targeted
by the combined-listing redirect — the product path carrying the first
variant's option pairs as its query. -/
def firstVariantUrl (p : ProductData) : Str :=
  productPath p.handle ++
    match p.variants.head? with
    | some v => '?' :: toQS v.selectedOptions
    | none => []

/-- Modelled from the spec: `redirectIfCombinedListing` (in
`~/.server/redirect`, outside src/) redirects a combined-listing parent to
its first child variant's canonical URL. -/
def redirectIfCombinedListing (p : ProductData) : Option Str :=
  if isCombinedListing p then some (firstVariantUrl p) else none

/-- Modelled from the spec: `getSelectedProductOptions` (external
`@weaverse/hydrogen` capability) parses the request's query string into the
name/value mapping of selected options. -/
def getSelectedProductOptions (req : Request) : Params :=
  parseSearch req.search

/-- SEO payloads are produced by the external pure formatter `seoPayload`;
modelled as opaque values recording the formatter's inputs. -/
inductive SeoPayload where
  | product (p : ProductData) (url : Str)
  | home
deriving DecidableEq

/-- The deferred recommended-products fetch, recorded as a pending handle
carrying the product id it was initiated with. -/
structure RecommendedHandle where
  productId : Str
deriving DecidableEq

/-- The payload returned on the product loader's success path
(`src/unnamed/part_000` lines 62-70). -/
structure ProductPayload where
  shop : Shop
  product : ProductData
  weaverseData : Option PageContent
  storeDomain : Str
  seo : SeoPayload
  recommended : RecommendedHandle
  selectedOptions : Params
deriving DecidableEq

/-- How a product-page request terminates. -/
inductive ProductOutcome where
  | fatal (msg : Str)
  | notFound (body : Str) (status : Nat)
  | redirect (location : Str)
  | payload (pl : ProductPayload)
deriving DecidableEq

/-- Whether the outcome is a failure (the thrown invariant error or the
thrown 404 response); redirects are deliberate successful terminations. -/
def ProductOutcome.isErr : ProductOutcome → Bool
  | .fatal _ => true
  | .notFound _ _ => true
  | _ => false

/-- Steps initiated by a loader, in initiation order. -/
inductive FetchEvent where
  | catalogQueryStarted
  | contentLoadStarted
  | recommendedStarted
  | seoComputed
deriving DecidableEq

/-- The product route loader (`src/unnamed/part_000` lines 30-71) with the
two awaited fetch results supplied as values, paired with the list of steps
it initiates: missing/empty handle fails the `invariant` before any fetch;
both fetches are then issued and joined; a product without identity yields
the thrown 404; the localized-handle redirect is applied, then the
combined-listing redirect when the config enables it; otherwise the deferred
recommended fetch is initiated and the payload built. -/
def productLoaderEv (handl : Option Str) (req : Request)
    (cfg : CombinedListingsConfig) (catalog : CatalogResult)
    (weaverseData : Option PageContent) : ProductOutcome × List FetchEvent :=
  match handl with
  | none => (.fatal "Missing productHandle param, check route filename".data, [])
  | some handle =>
    if handle = [] then
      (.fatal "Missing productHandle param, check route filename".data, [])
    else
      let selectedOptions := getSelectedProductOptions req
      let ev := [FetchEvent.catalogQueryStarted, FetchEvent.contentLoadStarted]
      match catalog.product with
      | none => (.notFound "product".data 404, ev)
      | some p =>
        if p.id = [] then (.notFound "product".data 404, ev)
        else
          match redirectIfHandleIsLocalized req handle p with
          | some target => (.redirect target, ev)
          | none =>
            match
              if cfg.redirectToFirstVariant then redirectIfCombinedListing p
              else none
            with
            | some target => (.redirect target, ev)
            | none =>
              let recommended : RecommendedHandle := ⟨p.id⟩
              (.payload
                { shop := catalog.shop
                  product := p
                  weaverseData := weaverseData
                  storeDomain := catalog.shop.primaryDomainUrl
                  seo := SeoPayload.product p req.url
                  recommended := recommended
                  selectedOptions := selectedOptions },
                ev ++ [FetchEvent.recommendedStarted, FetchEvent.seoComputed])

/-- The product loader's outcome alone. -/
def productLoader (handl : Option Str) (req : Request)
    (cfg : CombinedListingsConfig) (catalog : CatalogResult)
    (weaverseData : Option PageContent) : ProductOutcome :=
  (productLoaderEv handl req cfg catalog weaverseData).1

/-! The home route loader (`src/my-hydrogen-storefront/app/routes/home.tsx`). -/

/-- The weaverse page type derived by the home loader. -/
inductive PageType where
  | INDEX
  | CUSTOM
deriving DecidableEq

/-- The home loader's route inputs: `pathPfx` models
`context.storefront.i18n.pathPrefix`, `paramsLocale` models `params.locale`. -/
structure HomeArgs where
  pathPfx : Option Str
  paramsLocale : Option Str
deriving DecidableEq

/-- Page-type derivation (`home.tsx` lines 15-22): the active locale is the
path prefix without its leading slash (empty when the prefix is nullish or
empty); the type is `CUSTOM` exactly when the route's locale segment is a
nonempty string whose lowercase form differs from the active locale. -/
def homePageType (args : HomeArgs) : PageType :=
  let locale := (args.pathPfx.getD []).tail
  match args.paramsLocale with
  | none => .INDEX
  | some l =>
    if l ≠ [] ∧ l.map Char.toLower ≠ locale then .CUSTOM else .INDEX

/-- The constant `AnalyticsPageType.home` from the external analytics
vocabulary. -/
def analyticsPageTypeHome : Str := "home".data

/-- Modelled from the spec: `validateWeaverseData` (in `~/weaverse`, outside
src/) accepts exactly the present (non-null) page content; absent content
fails the request. -/
def validateWeaverseData (d : Option PageContent) : Bool := d.isSome

/-- The payload returned on the home loader's success path
(`home.tsx` lines 36-43); `analyticsPageType` is the `analytics.pageType`
field of the response. -/
structure HomePayload where
  shop : Shop
  weaverseData : Option PageContent
  analyticsPageType : Str
  seo : SeoPayload
deriving DecidableEq

/-- How a home request terminates. -/
inductive HomeOutcome where
  | error (msg : Str)
  | payload (pl : HomePayload)
deriving DecidableEq

/-- The `analytics.pageType` field carried by a home outcome, when any. -/
def HomeOutcome.analyticsPageTypeOf : HomeOutcome → Option Str
  | .payload pl => some pl.analyticsPageType
  | .error _ => none

/-- The home loader after its parallel fetches resolved (`home.tsx` lines
13-44) applied to the fetched values: validate the loaded content, then
return the payload whose `analytics.pageType` is the constant
`AnalyticsPageType.home`. -/
def homeLoaderCore (weaverseData : Option PageContent) (shop : Shop) :
    HomeOutcome :=
  let seo := SeoPayload.home
  if validateWeaverseData weaverseData then
    .payload
      { shop := shop
        weaverseData := weaverseData
        analyticsPageType := analyticsPageTypeHome
        seo := seo }
  else .error "weaverse data".data

/-- The home route loader with the content loader supplied as a capability:
the derived page type keys the content load, the shop query runs alongside,
and the joined values feed `homeLoaderCore`. -/
def homeLoader (args : HomeArgs) (loadPage : PageType → Option PageContent)
    (shop : Shop) : HomeOutcome :=
  homeLoaderCore (loadPage (homePageType args)) shop

/-! Timed model of the parallel joins: each fetch result carries the time it
resolves at, and `Promise.all` delivers the pair of values at the later of
the two times — downstream code consumes only the joined pair. -/

/-- A fetch result together with the time its promise resolves. -/
structure Timed (α : Type) where
  completesAt : Nat
  val : α
deriving DecidableEq

/-- Model of `Promise.all` on two promises: both values, available at the
later completion time. -/
def promiseAll2 {α β : Type} (a : Timed α) (b : Timed β) : Timed (α × β) :=
  ⟨max a.completesAt b.completesAt, (a.val, b.val)⟩

/-- The product loader over timed fetch results: the body runs on the joined
pair, at the join's completion time. -/
def productLoaderTimed (handl : Option Str) (req : Request)
    (cfg : CombinedListingsConfig) (catalog : Timed CatalogResult)
    (weaverseData : Timed (Option PageContent)) :
    Timed (ProductOutcome × List FetchEvent) :=
  let joined := promiseAll2 catalog weaverseData
  ⟨joined.completesAt, productLoaderEv handl req cfg joined.val.1 joined.val.2⟩

/-- The home loader over timed fetch results: the content load (keyed by the
derived page type) and the shop query are joined, and the body runs on the
joined pair. -/
def homeLoaderTimed (args : HomeArgs)
    (loadPage : PageType → Option PageContent) (tContent : Nat)
    (shop : Timed Shop) : Timed HomeOutcome :=
  let joined := promiseAll2 ⟨tContent, loadPage (homePageType args)⟩ shop
  ⟨joined.completesAt, homeLoaderCore joined.val.1 joined.val.2⟩

/-! Wellformedness of option pairs: with percent-encoding abstracted away,
the round trip between pair lists and query strings needs the names to be
free of both separator characters and the values free of the ampersand.
Every pair produced by parsing already has this shape. -/

/-- A name/value pair whose serialization parses back to itself: no
ampersand anywhere, no equals sign in the name. -/
def WfPair (p : Str × Str) : Prop := '&' ∉ p.1 ∧ '=' ∉ p.1 ∧ '&' ∉ p.2

instance (p : Str × Str) : Decidable (WfPair p) := by
  unfold WfPair; infer_instance

/-- All pairs of the list are wellformed. -/
def WfParams (ps : Params) : Prop := ∀ p ∈ ps, WfPair p

instance (ps : Params) : Decidable (WfParams ps) := by
  unfold WfParams; infer_instance

/-! Concrete fixtures used by the closed instance theorems. -/

/-- A concrete shop fixture. -/
def shopStub : Shop :=
  ⟨"Tastee".data, "a storefront".data, "https://example.com".data⟩

/-- A concrete page-content fixture. -/
def pageContentStub : PageContent := ⟨"sections".data⟩

/-- A concrete variant fixture. -/
def variantStub : Variant :=
  ⟨"gid-v1".data, "Large / Dark".data, "12.0".data, true,
    [("Size".data, "Large".data), ("Flavor".data, "Dark".data)]⟩

/-- A concrete product fixture: addressable, not a combined listing. -/
def productStub : ProductData :=
  ⟨"gid-p1".data, "choco-box".data, "Choco Box".data, "Tastee".data,
    [variantStub], some variantStub, false⟩

/-- A concrete combined-listing parent fixture whose canonical handle
differs from the requested one. -/
def combinedProductStub : ProductData :=
  ⟨"gid-p2".data, "boite-choco".data, "Boite Choco".data, "Tastee".data,
    [variantStub], some variantStub, true⟩

/-- A concrete product-page request fixture. -/
def reqStub : Request :=
  ⟨"/products/choco-box".data, "?Size=Large".data⟩

/-- Home-route arguments whose locale segment does not match the active
locale `fr`. -/
def homeArgsFr : HomeArgs := ⟨some "/fr".data, some "fr-custom".data⟩

/-! Lemmas about the pair-list model of `URLSearchParams`. -/

theorem getParam_setParam_self (ps : Params) (n v : Str) :
    getParam (setParam ps n v) n = some v := by
  induction ps with
  | nil => simp [setParam, getParam]
  | cons p rest ih =>
    obtain ⟨m, w⟩ := p
    by_cases h : m = n
    · simp [setParam, h, getParam]
    · simp [setParam, h, getParam, ih]

theorem getParam_removeParam (m n : Str) (h : m ≠ n) (ps : Params) :
    getParam (removeParam m ps) n = getParam ps n := by
  induction ps with
  | nil => rfl
  | cons p rest ih =>
    obtain ⟨k, w⟩ := p
    by_cases hk : k = m
    · subst hk
      simp [removeParam, getParam, ih, h]
    · by_cases hn : k = n
      · subst hn
        simp [removeParam, hk, getParam]
      · simp [removeParam, hk, getParam, hn, ih]

theorem getParam_setParam_ne (m n v : Str) (h : m ≠ n) (ps : Params) :
    getParam (setParam ps m v) n = getParam ps n := by
  induction ps with
  | nil => simp [setParam, getParam, h]
  | cons p rest ih =>
    obtain ⟨k, w⟩ := p
    by_cases hk : k = m
    · subst hk
      simp [setParam, getParam, h, getParam_removeParam k n h rest]
    · by_cases hn : k = n
      · subst hn
        simp [setParam, hk, getParam]
      · simp [setParam, hk, getParam, hn, ih]

theorem setAll_nil (ps : Params) : setAll ps [] = ps := rfl

theorem setAll_cons (ps : Params) (o : Str × Str) (opts : Params) :
    setAll ps (o :: opts) = setAll (setParam ps o.1 o.2) opts := rfl

theorem getParam_setAll_not_mem (n : Str) (opts : Params) :
    ∀ ps : Params, n ∉ opts.map Prod.fst →
      getParam (setAll ps opts) n = getParam ps n := by
  induction opts with
  | nil => intro ps _; rfl
  | cons o rest ih =>
    intro ps h
    rw [List.map_cons, List.mem_cons] at h
    push_neg at h
    rw [setAll_cons, ih _ h.2]
    exact getParam_setParam_ne o.1 n o.2 (fun he => h.1 he.symm) ps

theorem getParam_setAll_nodup (n v : Str) (opts : Params) :
    ∀ ps : Params, (opts.map Prod.fst).Nodup → (n, v) ∈ opts →
      getParam (setAll ps opts) n = some v := by
  induction opts with
  | nil => intro ps _ hm; cases hm
  | cons o rest ih =>
    intro ps hnd hm
    rw [List.map_cons, List.nodup_cons] at hnd
    rw [setAll_cons]
    rcases List.mem_cons.mp hm with he | hm2
    · have hfst : o.1 = n := by rw [← he]
      have hsnd : o.2 = v := by rw [← he]
      rw [getParam_setAll_not_mem n rest _ (hfst ▸ hnd.1), hfst, hsnd]
      exact getParam_setParam_self ps n v
    · exact ih _ hnd.2 hm2

theorem mem_removeParam (n : Str) (ps : Params) (p : Str × Str)
    (h : p ∈ removeParam n ps) : p ∈ ps := by
  induction ps with
  | nil => cases h
  | cons q rest ih =>
    obtain ⟨k, w⟩ := q
    by_cases hk : k = n
    · simp [removeParam, hk] at h
      exact List.mem_cons_of_mem _ (ih h)
    · simp [removeParam, hk] at h
      rcases h with he | hm
      · exact he ▸ List.mem_cons_self _ _
      · exact List.mem_cons_of_mem _ (ih hm)

theorem wf_removeParam (n : Str) (ps : Params) (h : WfParams ps) :
    WfParams (removeParam n ps) :=
  fun p hp => h p (mem_removeParam n ps p hp)

theorem wf_setParam (ps : Params) (n v : Str) (h : WfParams ps)
    (hp : WfPair (n, v)) : WfParams (setParam ps n v) := by
  induction ps with
  | nil =>
    intro q hq
    simp [setParam] at hq
    exact hq ▸ hp
  | cons q rest ih =>
    obtain ⟨k, w⟩ := q
    have hk : WfPair (k, w) := h _ (List.mem_cons_self _ _)
    have hrest : WfParams rest := fun r hr => h r (List.mem_cons_of_mem _ hr)
    by_cases he : k = n
    · intro r hr
      simp [setParam, he] at hr
      rcases hr with h1 | h2
      · exact h1 ▸ hp
      · exact wf_removeParam n rest hrest r h2
    · intro r hr
      simp [setParam, he] at hr
      rcases hr with h1 | h2
      · exact h1 ▸ hk
      · exact ih hrest r h2

theorem wf_setAll (opts : Params) :
    ∀ ps : Params, WfParams ps → WfParams opts → WfParams (setAll ps opts) := by
  induction opts with
  | nil => intro ps h _; exact h
  | cons o rest ih =>
    intro ps h ho
    rw [setAll_cons]
    have hohead : WfPair o := ho o (List.mem_cons_self _ _)
    have horest : WfParams rest := fun r hr => ho r (List.mem_cons_of_mem _ hr)
    exact ih _ (wf_setParam ps o.1 o.2 h hohead) horest

/-! Round trip between pair lists and query strings. -/

theorem splitAmp_ne_nil (s : Str) : splitAmp s ≠ [] := by
  cases s with
  | nil => simp [splitAmp]
  | cons c rest =>
    by_cases h : c = '&'
    · simp [splitAmp, h]
    · simp only [splitAmp, h, if_false]
      cases splitAmp rest <;> simp

theorem splitAmp_no_amp (s : Str) (h : '&' ∉ s) : splitAmp s = [s] := by
  induction s with
  | nil => rfl
  | cons c rest ih =>
    have hc : ¬ c = '&' := fun he => h (he ▸ List.mem_cons_self _ _)
    have hr : '&' ∉ rest := fun hm => h (List.mem_cons_of_mem _ hm)
    simp [splitAmp, hc, ih hr]

theorem splitAmp_append (a b : Str) (h : '&' ∉ a) :
    splitAmp (a ++ '&' :: b) = a :: splitAmp b := by
  induction a with
  | nil => simp [splitAmp]
  | cons c rest ih =>
    have hc : ¬ c = '&' := fun he => h (he ▸ List.mem_cons_self _ _)
    have hr : '&' ∉ rest := fun hm => h (List.mem_cons_of_mem _ hm)
    simp only [List.cons_append, splitAmp, hc, if_false, List.append_eq]
    rw [ih hr]

theorem amp_not_mem_of_mem_splitAmp (s : Str) :
    ∀ seg ∈ splitAmp s, '&' ∉ seg := by
  induction s with
  | nil =>
    intro seg hm
    simp [splitAmp] at hm
    simp [hm]
  | cons c rest ih =>
    intro seg hm
    by_cases hc : c = '&'
    · simp only [splitAmp, hc, if_true, List.mem_cons] at hm
      rcases hm with he | hm2
      · simp [he]
      · exact ih seg hm2
    · simp only [splitAmp, hc, if_false] at hm
      cases hsp : splitAmp rest with
      | nil => exact absurd hsp (splitAmp_ne_nil rest)
      | cons s0 ss =>
        rw [hsp, List.mem_cons] at hm
        rcases hm with he | hm2
        · subst he
          intro hmm
          rcases List.mem_cons.mp hmm with he2 | hm3
          · exact hc he2.symm
          · exact ih s0 (hsp ▸ List.mem_cons_self _ _) hm3
        · exact ih seg (hsp ▸ List.mem_cons_of_mem _ hm2)

theorem parsePair_append (n v : Str) (h : '=' ∉ n) :
    parsePair (n ++ '=' :: v) = (n, v) := by
  induction n with
  | nil => simp [parsePair]
  | cons c rest ih =>
    have hc : ¬ c = '=' := fun he => h (he ▸ List.mem_cons_self _ _)
    have hr : '=' ∉ rest := fun hm => h (List.mem_cons_of_mem _ hm)
    simp [parsePair, hc, ih hr]

theorem eq_not_mem_parsePair_fst (s : Str) : '=' ∉ (parsePair s).1 := by
  induction s with
  | nil => simp [parsePair]
  | cons c rest ih =>
    by_cases hc : c = '='
    · simp [parsePair, hc]
    · simp only [parsePair, hc, if_false]
      intro hm
      rcases List.mem_cons.mp hm with he | hm2
      · exact hc he.symm
      · exact ih hm2

theorem not_mem_parsePair (ch : Char) (s : Str) (h : ch ∉ s) :
    ch ∉ (parsePair s).1 ∧ ch ∉ (parsePair s).2 := by
  induction s with
  | nil => simp [parsePair]
  | cons c rest ih =>
    have hc : ¬ ch = c := fun he => h (he ▸ List.mem_cons_self _ _)
    have hr : ch ∉ rest := fun hm => h (List.mem_cons_of_mem _ hm)
    obtain ⟨h1, h2⟩ := ih hr
    by_cases he : c = '='
    · simp [parsePair, he]
      exact hr
    · simp only [parsePair, he, if_false]
      refine ⟨fun hm => ?_, h2⟩
      rcases List.mem_cons.mp hm with he2 | hm2
      · exact hc he2
      · exact h1 hm2

theorem serializePair_ne_nil (p : Str × Str) : serializePair p ≠ [] := by
  obtain ⟨n, v⟩ := p
  simp [serializePair]

theorem amp_not_mem_serializePair (p : Str × Str) (h : WfPair p) :
    '&' ∉ serializePair p := by
  obtain ⟨n, v⟩ := p
  obtain ⟨h1, _, h3⟩ := h
  simp only [serializePair]
  intro hm
  rcases List.mem_append.mp hm with hn | hv
  · exact h1 hn
  · rcases List.mem_cons.mp hv with he | hm2
    · cases he
    · exact h3 hm2

theorem parsePair_serializePair (p : Str × Str) (h : WfPair p) :
    parsePair (serializePair p) = p := by
  obtain ⟨n, v⟩ := p
  exact parsePair_append n v h.2.1

theorem parseQS_toQS (ps : Params) (h : WfParams ps) : parseQS (toQS ps) = ps := by
  induction ps with
  | nil => rfl
  | cons p rest ih =>
    have hp : WfPair p := h p (List.mem_cons_self _ _)
    have hrest : WfParams rest := fun q hq => h q (List.mem_cons_of_mem _ hq)
    cases rest with
    | nil =>
      have hone : toQS [p] = serializePair p := rfl
      rw [hone, parseQS, splitAmp_no_amp _ (amp_not_mem_serializePair p hp)]
      simp [serializePair_ne_nil p, parsePair_serializePair p hp]
    | cons q rest2 =>
      have hjoin : toQS (p :: q :: rest2)
          = serializePair p ++ '&' :: toQS (q :: rest2) := by
        simp [toQS, joinAmp]
      rw [hjoin, parseQS,
        splitAmp_append _ _ (amp_not_mem_serializePair p hp)]
      have hkeep : (serializePair p :: splitAmp (toQS (q :: rest2))).filter
          (fun seg => seg ≠ [])
          = serializePair p :: (splitAmp (toQS (q :: rest2))).filter
              (fun seg => seg ≠ []) := by
        simp [List.filter_cons, serializePair_ne_nil p]
      rw [hkeep, List.map_cons, parsePair_serializePair p hp]
      exact congrArg (p :: ·) (ih hrest)

theorem wf_parseQS (s : Str) : WfParams (parseQS s) := by
  intro p hp
  simp only [parseQS, List.mem_map, List.mem_filter] at hp
  obtain ⟨seg, ⟨hseg, _⟩, hpp⟩ := hp
  have hamp : '&' ∉ seg := amp_not_mem_of_mem_splitAmp s seg hseg
  subst hpp
  exact ⟨(not_mem_parsePair '&' seg hamp).1, eq_not_mem_parsePair_fst seg,
    (not_mem_parsePair '&' seg hamp).2⟩

theorem wf_parseSearch (s : Str) : WfParams (parseSearch s) := by
  cases s with
  | nil => exact wf_parseQS []
  | cons c rest =>
    by_cases hc : c = '?'
    · simp only [parseSearch, hc, if_true]
      exact wf_parseQS rest
    · simp only [parseSearch, hc, if_false]
      exact wf_parseQS (c :: rest)

/-! The claims. -/

/-- C6: for every combined-listing product, URL Synchronization never
modifies the URL, whatever the query string or the selected variant's
options: the routine returns before any comparison or update. -/
theorem claim6_combined_listing_exempt (selOpts : Option Params)
    (search : Str) : syncURL true selOpts search = none := by
  cases selOpts with
  | none => rfl
  | some opts => simp [syncURL]

/-- C10: for a non-combined-listing product whose optimistic variant has an
empty selectedOptions list, synchronization never rewrites the URL: with an
existing query string no option can differ, and with no query string the
rebuilt query string is byte-identical to the empty one, so the final guard
suppresses the replacement. -/
theorem claim10_empty_options_no_rewrite (search : Str) :
    syncURL false (some []) search = none := by
  by_cases hs : search = []
  · subst hs; rfl
  · simp [syncURL, needsUpdate, hs]

/-- C7: the routine decides an update is required exactly when either the
URL has no query string at all, or some option name present on the selected
variant has a URL value differing from the variant's value (an absent name
counts as differing); when neither holds, no update is performed. -/
theorem claim7_needsUpdate_characterization (opts : Params) (search : Str) :
    (needsUpdate opts search = true ↔
      search = [] ∨ ∃ o ∈ opts, getParam (parseSearch search) o.1 ≠ some o.2)
    ∧ (needsUpdate opts search = false →
        syncURL false (some opts) search = none) := by
  constructor
  · by_cases hs : search = []
    · simp [needsUpdate, hs]
    · simp [needsUpdate, hs, List.any_eq_true]
  · intro h
    simp [syncURL, h]

/-- C9: the resolver's result is a function only of the two fetched values:
in the timed model of the parallel join, the final payload is identical for
any two completion orders of the catalog query (or shop query) and the
page-content load, and the joined result only becomes available at the later
of the two completion times, so no downstream step observes partial
completion. -/
theorem claim9_join_semantics (handl : Option Str) (req : Request)
    (cfg : CombinedListingsConfig) (catalog : CatalogResult)
    (wd : Option PageContent) (t1 t2 u1 u2 : Nat) (args : HomeArgs)
    (lp : PageType → Option PageContent) (shop : Shop) (s1 s2 v1 v2 : Nat) :
    (productLoaderTimed handl req cfg ⟨t1, catalog⟩ ⟨t2, wd⟩).val
        = (productLoaderTimed handl req cfg ⟨u1, catalog⟩ ⟨u2, wd⟩).val
      ∧ (productLoaderTimed handl req cfg ⟨t1, catalog⟩ ⟨t2, wd⟩).completesAt
          = max t1 t2
      ∧ (homeLoaderTimed args lp s1 ⟨s2, shop⟩).val
          = (homeLoaderTimed args lp v1 ⟨v2, shop⟩).val
      ∧ (homeLoaderTimed args lp s1 ⟨s2, shop⟩).completesAt = max s1 s2 :=
  ⟨rfl, rfl, rfl, rfl⟩

/-- C1: when a product triggers both the localized-handle mismatch and
combined-listing-redirect eligibility (with redirectToFirstVariant enabled),
the product loader terminates with the redirect to the localized canonical
URL, preserving the query string — not with the first-variant URL — because
the localized-handle check runs strictly before the combined-listing
check. -/
theorem claim1_localized_redirect_precedes_combined (handle : Str)
    (req : Request) (cfg : CombinedListingsConfig) (catalog : CatalogResult)
    (wd : Option PageContent) (p : ProductData) (hh : handle ≠ [])
    (hp : catalog.product = some p) (hid : p.id ≠ [])
    (hloc : p.handle ≠ handle) (hcfg : cfg.redirectToFirstVariant = true)
    (hcomb : isCombinedListing p = true) :
    productLoader (some handle) req cfg catalog wd
      = .redirect (productPath p.handle ++ req.search) := by
  simp [productLoader, productLoaderEv, hh, hp, hid,
    redirectIfHandleIsLocalized, hloc]

/-- C1 witness: a combined-listing parent with a mismatching canonical
handle, under a config enabling the first-variant redirect, is redirected to
its localized canonical URL. -/
theorem claim1_witness :
    productLoader (some "choco-box".data) reqStub ⟨true⟩
        ⟨shopStub, some combinedProductStub⟩ none
      = ProductOutcome.redirect
          (productPath combinedProductStub.handle ++ reqStub.search) :=
  claim1_localized_redirect_precedes_combined "choco-box".data reqStub ⟨true⟩
    ⟨shopStub, some combinedProductStub⟩ none combinedProductStub
    (by decide) rfl (by decide) (by decide) rfl rfl

/-- C8: when the catalog query returns a product without identity, the
product loader terminates with the thrown 404 response, and neither the SEO
payload computation nor the recommended-products fetch is initiated. -/
theorem claim8_lookup_miss_not_found (handle : Str) (req : Request)
    (cfg : CombinedListingsConfig) (catalog : CatalogResult)
    (wd : Option PageContent) (hh : handle ≠ [])
    (hid : hasIdentity catalog.product = false) :
    (productLoaderEv (some handle) req cfg catalog wd).1
        = .notFound "product".data 404
      ∧ FetchEvent.seoComputed
          ∉ (productLoaderEv (some handle) req cfg catalog wd).2
      ∧ FetchEvent.recommendedStarted
          ∉ (productLoaderEv (some handle) req cfg catalog wd).2 := by
  cases hcp : catalog.product with
  | none => simp [productLoaderEv, hh, hcp]
  | some p =>
    rw [hcp] at hid
    simp only [hasIdentity, decide_eq_false_iff_not, not_not] at hid
    simp [productLoaderEv, hh, hcp, hid]

/-- C8 witness: a catalog result with no product yields the 404 outcome and
initiates neither the SEO computation nor the recommended fetch. -/
theorem claim8_witness :
    (productLoaderEv (some "choco-box".data) reqStub ⟨true⟩ ⟨shopStub, none⟩
          none).1 = ProductOutcome.notFound "product".data 404
      ∧ FetchEvent.seoComputed ∉ (productLoaderEv (some "choco-box".data)
          reqStub ⟨true⟩ ⟨shopStub, none⟩ none).2
      ∧ FetchEvent.recommendedStarted ∉ (productLoaderEv (some "choco-box".data)
          reqStub ⟨true⟩ ⟨shopStub, none⟩ none).2 :=
  claim8_lookup_miss_not_found "choco-box".data reqStub ⟨true⟩
    ⟨shopStub, none⟩ none (by decide) rfl

/-- C3 counterexample: the claim says the response does not carry
analyticsPageType "home" when the derived page type is CUSTOM; but on the
`/fr-custom` route with active locale `fr` the page type is CUSTOM and the
successful response still carries `analytics.pageType = "home"`, because the
loader returns that constant unconditionally. -/
theorem claim3_counterexample :
    homePageType homeArgsFr = PageType.CUSTOM
      ∧ (homeLoader homeArgsFr (fun _ => some pageContentStub)
            shopStub).analyticsPageTypeOf = some "home".data := by
  exact ⟨by decide, rfl⟩

/-- C3 (amended): every successful home response carries
`analytics.pageType = "home"`, for the INDEX and CUSTOM page types alike:
the loader builds the analytics field from the constant
`AnalyticsPageType.home` without consulting the derived page type. -/
theorem claim3_amended_analytics_always_home (args : HomeArgs)
    (lp : PageType → Option PageContent) (shop : Shop) (pl : HomePayload)
    (h : homeLoader args lp shop = .payload pl) :
    pl.analyticsPageType = "home".data := by
  by_cases hv : validateWeaverseData (lp (homePageType args)) = true
  · simp only [homeLoader, homeLoaderCore, hv, if_true,
      HomeOutcome.payload.injEq] at h
    rw [← h]
    rfl
  · simp [homeLoader, homeLoaderCore, hv] at h

/-- C3 witness: the amended theorem applied to the CUSTOM-page fixture. -/
theorem claim3_witness :
    (⟨shopStub, some pageContentStub, analyticsPageTypeHome,
        SeoPayload.home⟩ : HomePayload).analyticsPageType = "home".data :=
  claim3_amended_analytics_always_home homeArgsFr
    (fun _ => some pageContentStub) shopStub _ rfl

/-- C4 counterexample: the claim says absent page content fails the request
for home and product alike; but the product loader performs no content
validation — with absent content and an addressable product it still returns
the success payload. -/
theorem claim4_counterexample :
    (productLoader (some "choco-box".data) reqStub ⟨true⟩
        ⟨shopStub, some productStub⟩ none).isErr = false := by decide

/-- C4 (amended): the home loader fails the request when the page content is
absent; the product loader performs no such validation — whether its outcome
is a failure is independent of the fetched page content. -/
theorem claim4_amended_content_validation (args : HomeArgs) (shop : Shop)
    (handl : Option Str) (req : Request) (cfg : CombinedListingsConfig)
    (catalog : CatalogResult) (wd1 wd2 : Option PageContent) :
    homeLoader args (fun _ => none) shop = .error "weaverse data".data
      ∧ (productLoaderEv handl req cfg catalog wd1).1.isErr
          = (productLoaderEv handl req cfg catalog wd2).1.isErr := by
  refine ⟨rfl, ?_⟩
  cases handl with
  | none => rfl
  | some handle =>
    by_cases hh : handle = []
    · simp [productLoaderEv, hh]
    · cases hcp : catalog.product with
      | none => simp [productLoaderEv, hh, hcp]
      | some p =>
        by_cases hid : p.id = []
        · simp [productLoaderEv, hh, hcp, hid]
        · cases hloc : redirectIfHandleIsLocalized req handle p with
          | some t => simp [productLoaderEv, hh, hcp, hid, hloc]
          | none =>
            cases hcl : (if cfg.redirectToFirstVariant
                then redirectIfCombinedListing p else none) with
            | some t => simp [productLoaderEv, hh, hcp, hid, hloc, hcl]
            | none =>
              simp [productLoaderEv, hh, hcp, hid, hloc, hcl,
                ProductOutcome.isErr]

/-- C2: URL Synchronization is idempotent — whenever a first application to
a (product, URL) pair replaces the URL, a second application to the produced
URL performs no update.  The option pairs are assumed wellformed (separator
characters are abstracted percent-encoding) with pairwise distinct names
(the data model's one-value-per-option-axis invariant). -/
theorem claim2_syncURL_idempotent (cl : Bool) (opts : Params)
    (search s2 : Str) (hwf : WfParams opts)
    (hnd : (opts.map Prod.fst).Nodup)
    (h : syncURL cl (some opts) search = some s2) :
    syncURL cl (some opts) s2 = none := by
  cases cl with
  | true => simp [syncURL] at h
  | false =>
    have hbasewf : WfParams (setAll (parseSearch search) opts) :=
      wf_setAll opts _ (wf_parseSearch search) hwf
    by_cases hn : needsUpdate opts search = true
    · by_cases hg : toQS (setAll (parseSearch search) opts) = search.tail
      · simp [syncURL, hn, hg] at h
      · have hs2 : s2 = '?' :: toQS (setAll (parseSearch search) opts) := by
          simp [syncURL, hn, hg] at h
          exact h.symm
        subst hs2
        have hparse :
            parseSearch ('?' :: toQS (setAll (parseSearch search) opts))
              = setAll (parseSearch search) opts := by
          simp only [parseSearch, if_true]
          exact parseQS_toQS _ hbasewf
        have hne : needsUpdate opts
            ('?' :: toQS (setAll (parseSearch search) opts)) = false := by
          simp only [needsUpdate]
          rw [if_neg (by simp)]
          simp only [List.any_eq_false]
          intro o ho
          obtain ⟨n, v⟩ := o
          simp only [decide_eq_true_eq, not_not]
          rw [hparse]
          exact getParam_setAll_nodup n v opts _ hnd ho
        simp [syncURL, hne]
    · simp [syncURL, hn] at h

/-- C2 witness: one application to the empty search installs the variant's
option query; the second application performs no update. -/
theorem claim2_witness :
    syncURL false (some [("Size".data, "Large".data)]) "?Size=Large".data
      = none :=
  claim2_syncURL_idempotent false [("Size".data, "Large".data)] []
    "?Size=Large".data (by decide) (by decide) (by decide)

/-- C5: synchronization never overwrites or removes query parameters whose
names are not option names of the selected variant: for a
non-combined-listing product, a parameter unrelated to the variant's options
keeps its original value in the final URL, alongside the variant's option
name/value pairs.  The search string is empty or starts with a question
mark, as `window.location.search` always is; the option pairs are assumed
wellformed with pairwise distinct names as in the idempotence theorem. -/
theorem claim5_sync_preserves_unrelated (opts : Params) (search r val : Str)
    (hwf : WfParams opts) (hnd : (opts.map Prod.fst).Nodup)
    (hq : search = [] ∨ ∃ t, search = '?' :: t)
    (hr : r ∉ opts.map Prod.fst)
    (hval : getParam (parseSearch search) r = some val) :
    getParam (parseSearch ((syncURL false (some opts) search).getD search)) r
        = some val
      ∧ ∀ o ∈ opts,
          getParam
              (parseSearch ((syncURL false (some opts) search).getD search))
              o.1 = some o.2 := by
  rcases hq with hempty | ⟨t, ht⟩
  · subst hempty
    simp [parseSearch, parseQS, splitAmp, getParam] at hval
  · subst ht
    have hps : parseSearch ('?' :: t) = parseQS t := by
      simp only [parseSearch, if_true]
    have hsetwf : WfParams (setAll (parseQS t) opts) :=
      wf_setAll opts _ (wf_parseQS t) hwf
    have hrt : parseQS (toQS (setAll (parseQS t) opts))
        = setAll (parseQS t) opts := parseQS_toQS _ hsetwf
    rw [hps] at hval
    by_cases hn : needsUpdate opts ('?' :: t) = true
    · by_cases hg : toQS (setAll (parseQS t) opts) = t
      · have hres : syncURL false (some opts) ('?' :: t) = none := by
          simp [syncURL, hn, hps, List.tail_cons, hg]
        rw [hres, Option.getD_none, hps]
        have hfix : parseQS t = setAll (parseQS t) opts := by
          conv_lhs => rw [← hg]
          exact hrt
        refine ⟨hval, fun o ho => ?_⟩
        obtain ⟨n, v⟩ := o
        rw [hfix]
        exact getParam_setAll_nodup n v opts _ hnd ho
      · have hres : syncURL false (some opts) ('?' :: t)
            = some ('?' :: toQS (setAll (parseQS t) opts)) := by
          simp [syncURL, hn, hps, List.tail_cons, hg]
        rw [hres, Option.getD_some]
        have hps2 : parseSearch ('?' :: toQS (setAll (parseQS t) opts))
            = setAll (parseQS t) opts := by
          simp only [parseSearch, if_true]
          exact hrt
        rw [hps2]
        constructor
        · rw [getParam_setAll_not_mem r opts _ hr]
          exact hval
        · intro o ho
          obtain ⟨n, v⟩ := o
          exact getParam_setAll_nodup n v opts _ hnd ho
    · have hres : syncURL false (some opts) ('?' :: t) = none := by
        simp [syncURL, hn]
      rw [hres, Option.getD_none, hps]
      refine ⟨hval, fun o ho => ?_⟩
      rw [Bool.not_eq_true] at hn
      simp only [needsUpdate, if_neg (by simp : ¬ ('?' :: t : Str) = []),
        List.any_eq_false] at hn
      have hno := hn o ho
      simp only [decide_eq_true_eq, not_not] at hno
      rw [hps] at hno
      exact hno

/-- C5 witness: with unrelated parameter ref=abc and option Size=Large, the
synchronized URL still carries ref=abc alongside Size=Large. -/
theorem claim5_witness :
    getParam (parseSearch ((syncURL false (some [("Size".data, "Large".data)])
            "?ref=abc".data).getD "?ref=abc".data)) "ref".data
        = some "abc".data
      ∧ ∀ o ∈ [("Size".data, "Large".data)],
          getParam (parseSearch ((syncURL false
              (some [("Size".data, "Large".data)]) "?ref=abc".data).getD
              "?ref=abc".data)) o.1 = some o.2 :=
  claim5_sync_preserves_unrelated [("Size".data, "Large".data)]
    "?ref=abc".data "ref".data "abc".data (by decide) (by decide)
    (Or.inr ⟨"ref=abc".data, rfl⟩) (by decide) (by decide)

end Storefront
